import Mathlib

/-!
Verification of the Chandy–Seidel Pareto-elongation adjustment engine
(`chandy-seidel.js`) and the Lorenz/Gini statistics module (`lorenz.js`,
`chart.js`) of the chandy-seidel-viz repository, as a shallow embedding
over the real numbers.  JavaScript numbers are modelled as `ℝ`
(`Math.log` as `Real.log`, `Math.pow` on a nonnegative base as
`Real.rpow`, `Math.floor` as `Int.floor`); `undefined`/`null` arguments
and results are modelled by `Option`; the `Array.prototype.sort` call
(stable, ascending by the comparator `a.p - b.p`) is modelled by
`List.insertionSort` on the key `p`, which is stable and sorts by the
same key.  Every real number is finite, so JavaScript's `isFinite`
guards are vacuously true in the model, and reason strings are modelled
by an inductive `Reason` type in which the dynamic part of the
`Invalid Pareto alpha` message (the computed alpha, printed by
`toFixed(3)`) is carried as a real-valued payload.
-/

namespace ChandySeidel

/-- A point of an input Lorenz distribution: `{p, l, w}` in the source
(`w`, the per-bin welfare, is optional). -/
structure LPoint where
  p : ℝ
  l : ℝ
  w : Option ℝ

instance : Inhabited LPoint := ⟨⟨0, 0, none⟩⟩

/-- A point of an adjusted distribution.  Rescaled original points carry
`isPareto = false` and `originalP`/`originalL`; synthesized Pareto-tail
points carry `isPareto = true` and `pPareto`/`lPareto`; the origin point
possibly prepended by `combineDistributions` carries only `p`, `l`,
`isPareto`. -/
structure APoint where
  p : ℝ
  l : ℝ
  w : Option ℝ
  isPareto : Bool
  originalP : Option ℝ
  originalL : Option ℝ
  pPareto : Option ℝ
  lPareto : Option ℝ

/-- The enumerable rejection reasons of `calculateChandySeidel`; the
`invalidAlpha` reason carries the computed alpha that the source embeds
into the message `Invalid Pareto alpha (alpha.toFixed(3) <= 1)`. -/
inductive Reason where
  | invalidDistribution
  | invalidSurveyMean
  | noNASData
  | nasLeSurvey
  | noTopDecile
  | notEnoughBins
  | invalidTopDecile
  | identicalIncomes
  | invalidAlpha (alpha : ℝ)

/-- A rejected result: `{adjusted: false, reason, ...}` with the partial
fields (`surveyMean`, `nasMean`, `gap`, `gapPercent`) that some
rejection branches populate. -/
structure Rejection where
  reason : Reason
  surveyMean : Option ℝ
  nasMean : Option ℝ
  gap : Option ℝ
  gapPercent : Option ℝ

/-- An accepted result: `{adjusted: true, ...}` with every field the
source returns. -/
structure Accepted where
  surveyMean : ℝ
  nasMean : ℝ
  adjustedMean : ℝ
  gap : ℝ
  gapPercent : ℝ
  gapShare : ℝ
  topDecileCutoff : ℝ
  alpha : ℝ
  ratio : ℝ
  ratio2 : ℝ
  surveyPct : ℝ
  surveyPctTop : ℝ
  topDecileP : ℝ
  topDecileL : ℝ
  minY : ℝ
  maxY : ℝ
  originalDist : List LPoint
  adjustedDist : List APoint
  paretoTailBins : ℕ

/-- The tagged union returned by `calculateChandySeidel`. -/
inductive AdjustmentResult where
  | rejected (r : Rejection)
  | accepted (a : Accepted)

/-- `distribution.findIndex(d => d.p >= topDecileCutoff)` together with
`distribution.slice(topDecileIdx)`: returns the first point whose `p`
is at least the cutoff, paired with the suffix of the distribution
starting at that point; `none` when no point qualifies. -/
noncomputable def findTop (topDecileCutoff : ℝ) : List LPoint → Option (LPoint × List LPoint)
  | [] => none
  | d :: rest =>
    if topDecileCutoff ≤ d.p then some (d, d :: rest) else findTop topDecileCutoff rest

/-- The `relativeIncomes` loop of the source: for each consecutive pair
of `topDecileBins` with `pDiff > 0`, record `lDiff / pDiff`.  (The
source's `i = 0` iteration always computes `pDiff = bins[0].p -
topDecileP = 0` and is always skipped, so only consecutive pairs
contribute.) -/
noncomputable def relIncomes : List LPoint → List ℝ
  | a :: b :: rest =>
    (if 0 < b.p - a.p then [(b.l - a.l) / (b.p - a.p)] else []) ++ relIncomes (b :: rest)
  | _ => []

/-- `Math.min(...xs)` over a nonempty list (the source only applies it
after checking `relativeIncomes.length >= 2`; the `[]` case is
unreachable there). -/
def listMin : List ℝ → ℝ
  | [] => 0
  | [x] => x
  | x :: y :: rest => min x (listMin (y :: rest))

/-- `Math.max(...xs)` over a nonempty list. -/
def listMax : List ℝ → ℝ
  | [] => 0
  | [x] => x
  | x :: y :: rest => max x (listMax (y :: rest))

/-- `ratio = 1 / (1 + gapShare * (naRatio - 1))` with
`naRatio = nasMean / surveyMean`. -/
noncomputable def ratioOf (gapShare naRatio : ℝ) : ℝ :=
  1 / (1 + gapShare * (naRatio - 1))

/-- `ratio2 = topDecileShare / (topDecileShare + gapShare * (naRatio - 1))`
where `topDecileShare = 1 - topDecileL`. -/
noncomputable def ratio2Of (topDecileL gapShare naRatio : ℝ) : ℝ :=
  (1 - topDecileL) / ((1 - topDecileL) + gapShare * (naRatio - 1))

/-- `alpha = Math.log(1 - ratio2) / logRatio + 1` with
`logRatio = Math.log(minY / maxY)`. -/
noncomputable def alphaOf (minY maxY ratio2 : ℝ) : ℝ :=
  Real.log (1 - ratio2) / Real.log (minY / maxY) + 1

/-- `surveyPctTop = 1 - Math.pow(minY / maxY, alpha)`. -/
noncomputable def surveyPctTopOf (minY maxY alpha : ℝ) : ℝ :=
  1 - (minY / maxY) ^ alpha

/-- `surveyPct = 1 / (1 + (1 - topDecileP) * (1 - surveyPctTop))`. -/
noncomputable def surveyPctOf (topDecileP surveyPctTop : ℝ) : ℝ :=
  1 / (1 + (1 - topDecileP) * (1 - surveyPctTop))

/-- The `alpha` of a run that found the top-decile point `top` and
slice `bins`: `alphaOf` at `minY = min`, `maxY = max` of the relative
incomes, with `ratio2` computed from `topDecileL = top.l`. -/
noncomputable def alphaVal (gapShare nasMean surveyMean : ℝ) (top : LPoint)
    (bins : List LPoint) : ℝ :=
  alphaOf (listMin (relIncomes bins)) (listMax (relIncomes bins))
    (ratio2Of top.l gapShare (nasMean / surveyMean))

/-- The `surveyPctTop` of such a run. -/
noncomputable def surveyPctTopVal (gapShare nasMean surveyMean : ℝ) (top : LPoint)
    (bins : List LPoint) : ℝ :=
  surveyPctTopOf (listMin (relIncomes bins)) (listMax (relIncomes bins))
    (alphaVal gapShare nasMean surveyMean top bins)

/-- The `surveyPct` of such a run. -/
noncomputable def surveyPctVal (gapShare nasMean surveyMean : ℝ) (top : LPoint)
    (bins : List LPoint) : ℝ :=
  surveyPctOf top.p (surveyPctTopVal gapShare nasMean surveyMean top bins)

/-- The rescaling of one original point (step 8 of the source):
`{p: d.p * surveyPct, l: d.l * ratio, w: d.w, isPareto: false,
originalP: d.p, originalL: d.l}`. -/
def rescalePoint (surveyPct ratio : ℝ) (d : LPoint) : APoint :=
  ⟨d.p * surveyPct, d.l * ratio, d.w, false, some d.p, some d.l, none, none⟩

/-- One synthesized Pareto-tail bin (`generateParetoTail` loop body) at
index `i` of `numBins`. -/
noncomputable def paretoBin (alpha surveyPctTop ratio topDecileL topDecileP surveyPct : ℝ)
    (numBins i : ℕ) : APoint :=
  let pPareto := surveyPctTop + (1 - surveyPctTop) * ((i : ℝ) / (numBins : ℝ))
  let lPareto := 1 - (1 - pPareto) ^ (1 - 1 / alpha)
  let pAdj := pPareto * (1 - topDecileP) * surveyPct +
    (1 - surveyPctTop * (1 - topDecileP)) * surveyPct
  let lAdj := ratio * topDecileL + lPareto * (1 - ratio * topDecileL)
  ⟨pAdj, lAdj, none, true, none, none, some pPareto, some lPareto⟩

/-- `numBins = Math.max(1, Math.floor(100 * (1 - surveyPctTop)) + 1)`. -/
noncomputable def numBinsOf (surveyPctTop : ℝ) : ℕ :=
  (max 1 (⌊100 * (1 - surveyPctTop)⌋ + 1)).toNat

/-- `generateParetoTail`: the list of `numBins` new Pareto points,
indexed `i = 1 .. numBins`. -/
noncomputable def generateParetoTail (alpha surveyPctTop ratio topDecileL topDecileP surveyPct : ℝ) :
    List APoint :=
  (List.range (numBinsOf surveyPctTop)).map
    (fun j => paretoBin alpha surveyPctTop ratio topDecileL topDecileP surveyPct
      (numBinsOf surveyPctTop) (j + 1))

/-- The key order used by `combined.sort((a, b) => a.p - b.p)`. -/
def leP (a b : APoint) : Prop := a.p ≤ b.p

noncomputable instance : DecidableRel leP :=
  fun a b => inferInstanceAs (Decidable (a.p ≤ b.p))

instance : IsTotal APoint leP := ⟨fun a b => le_total a.p b.p⟩

instance : IsTrans APoint leP := ⟨fun _ _ _ h h' => le_trans h h'⟩

/-- The origin point `{p: 0, l: 0, isPareto: false}` that
`combineDistributions` may prepend. -/
def originPoint : APoint := ⟨0, 0, none, false, none, none, none, none⟩

/-- The in-place mutation `last.p = 1; last.l = 1` of the final merged
point: replaces the `p` and `l` of the last element, keeping its other
fields.  (On the empty list the source would fault; `combineDistributions`
only applies it to a nonempty list.) -/
def forceLast : List APoint → List APoint
  | [] => []
  | [x] => [⟨1, 1, x.w, x.isPareto, x.originalP, x.originalL, x.pPareto, x.lPareto⟩]
  | x :: y :: rest => x :: forceLast (y :: rest)

/-- `combineDistributions`: concatenate, sort ascending by `p`, prepend
the origin when the first point's `p` exceeds `0.001` (or the list is
empty), then force the last point to exactly `(1, 1)`. -/
noncomputable def combineDistributions (rescaled paretoTail : List APoint) : List APoint :=
  let combined := List.insertionSort leP (rescaled ++ paretoTail)
  let withOrigin :=
    match combined with
    | [] => [originPoint]
    | x :: xs => if 0.001 < x.p then originPoint :: x :: xs else x :: xs
  forceLast withOrigin

/-- The record built by the acceptance branch of `calculateChandySeidel`
(steps 3–11 of the source), given the survived validation data: the
found top-decile point `top` and the slice `bins` starting at it. -/
noncomputable def mkAccepted (distribution : List LPoint)
    (surveyMean nasMean gapShare topDecileCutoff : ℝ) (top : LPoint) (bins : List LPoint) :
    Accepted :=
  { surveyMean := surveyMean
    nasMean := nasMean
    adjustedMean := surveyMean / ratioOf gapShare (nasMean / surveyMean)
    gap := nasMean - surveyMean
    gapPercent := (nasMean - surveyMean) / surveyMean * 100
    gapShare := gapShare
    topDecileCutoff := topDecileCutoff
    alpha := alphaVal gapShare nasMean surveyMean top bins
    ratio := ratioOf gapShare (nasMean / surveyMean)
    ratio2 := ratio2Of top.l gapShare (nasMean / surveyMean)
    surveyPct := surveyPctVal gapShare nasMean surveyMean top bins
    surveyPctTop := surveyPctTopVal gapShare nasMean surveyMean top bins
    topDecileP := top.p
    topDecileL := top.l
    minY := listMin (relIncomes bins)
    maxY := listMax (relIncomes bins)
    originalDist := distribution
    adjustedDist := combineDistributions
      (distribution.map (rescalePoint (surveyPctVal gapShare nasMean surveyMean top bins)
        (ratioOf gapShare (nasMean / surveyMean))))
      (generateParetoTail (alphaVal gapShare nasMean surveyMean top bins)
        (surveyPctTopVal gapShare nasMean surveyMean top bins)
        (ratioOf gapShare (nasMean / surveyMean)) top.l top.p
        (surveyPctVal gapShare nasMean surveyMean top bins))
    paretoTailBins := (generateParetoTail (alphaVal gapShare nasMean surveyMean top bins)
      (surveyPctTopVal gapShare nasMean surveyMean top bins)
      (ratioOf gapShare (nasMean / surveyMean)) top.l top.p
      (surveyPctVal gapShare nasMean surveyMean top bins)).length }

/-- `calculateChandySeidel(distribution, surveyMean, nasMean, gapShare,
topDecileCutoff)` (the source defaults are `gapShare = 0.5`,
`topDecileCutoff = 0.9`).  The two means are `Option ℝ` so that a
missing (`undefined`) argument — caught by the source's falsy checks
`!surveyMean` / `!nasMean` — is representable; a present mean then
fails the same branch exactly when it is `≤ 0` (the falsy value `0` is
subsumed by `≤ 0`). -/
noncomputable def calculateChandySeidel (distribution : List LPoint)
    (surveyMean? nasMean? : Option ℝ) (gapShare topDecileCutoff : ℝ) : AdjustmentResult :=
  if distribution.length < 10 then
    .rejected ⟨.invalidDistribution, none, none, none, none⟩
  else
    match surveyMean? with
    | none => .rejected ⟨.invalidSurveyMean, none, none, none, none⟩
    | some surveyMean =>
      if surveyMean ≤ 0 then .rejected ⟨.invalidSurveyMean, none, none, none, none⟩
      else
        match nasMean? with
        | none => .rejected ⟨.noNASData, none, none, none, none⟩
        | some nasMean =>
          if nasMean ≤ 0 then .rejected ⟨.noNASData, none, none, none, none⟩
          else if nasMean ≤ surveyMean then
            .rejected ⟨.nasLeSurvey, some surveyMean, some nasMean, some 0, some 0⟩
          else
            match findTop topDecileCutoff distribution with
            | none => .rejected ⟨.noTopDecile, none, none, none, none⟩
            | some (top, bins) =>
              if (relIncomes bins).length < 2 then
                .rejected ⟨.notEnoughBins, none, none, none, none⟩
              else if listMin (relIncomes bins) ≤ 0 ∨ listMax (relIncomes bins) ≤ 0 ∨
                  listMax (relIncomes bins) ≤ listMin (relIncomes bins) then
                .rejected ⟨.invalidTopDecile, none, none, none, none⟩
              else if Real.log (listMin (relIncomes bins) / listMax (relIncomes bins)) = 0 then
                .rejected ⟨.identicalIncomes, none, none, none, none⟩
              else if alphaVal gapShare nasMean surveyMean top bins ≤ 1 then
                .rejected ⟨.invalidAlpha (alphaVal gapShare nasMean surveyMean top bins),
                  some surveyMean, some nasMean, some (nasMean - surveyMean),
                  some ((nasMean - surveyMean) / surveyMean * 100)⟩
              else
                .accepted (mkAccepted distribution surveyMean nasMean gapShare topDecileCutoff
                  top bins)

/-! ## Lorenz / statistics module (`lorenz.js`, `chart.js`) -/

/-- The key order used by `data.sort((a, b) => a.p - b.p)` in
`calculateGini`. -/
def leLP (a b : LPoint) : Prop := a.p ≤ b.p

noncomputable instance : DecidableRel leLP :=
  fun a b => inferInstanceAs (Decidable (a.p ≤ b.p))

instance : IsTotal LPoint leLP := ⟨fun a b => le_total a.p b.p⟩

instance : IsTrans LPoint leLP := ⟨fun _ _ _ h h' => le_trans h h'⟩

/-- The trapezoidal-rule loop of `calculateGini`:
`Σ (p_i - p_{i-1}) * (l_i + l_{i-1}) / 2` over consecutive pairs. -/
noncomputable def trapezoidArea : List LPoint → ℝ
  | a :: b :: rest => (b.p - a.p) * ((b.l + a.l) / 2) + trapezoidArea (b :: rest)
  | _ => 0

/-- `calculateGini(lorenz)`: `null` for fewer than 2 points; otherwise
prepend the origin when the first point is not effectively at the
origin, sort ascending by `p`, integrate by the trapezoidal rule, and
return `clamp(1 - 2 * area, 0, 1)` (as
`Math.max(0, Math.min(1, gini))`). -/
noncomputable def calculateGini (lorenz : List LPoint) : Option ℝ :=
  if lorenz.length < 2 then none
  else
    match lorenz with
    | [] => none
    | x :: xs =>
      let data := if 0.001 < x.p ∨ 0.001 < x.l then ⟨0, 0, none⟩ :: x :: xs else x :: xs
      let sorted := List.insertionSort leLP data
      some (max 0 (min 1 (1 - 2 * trapezoidArea sorted)))

/-- The forward scan shared by `interpolateLorenz` (lorenz.js) and
`LorenzChart.interpolate` (chart.js):
`let i = 0; while (i < len - 1 && lorenz[i+1].p < p) i++;` then return
the last point's `l` when the scan ran off the end (`i >= len - 1`) and
otherwise interpolate linearly between `lorenz[i]` and `lorenz[i+1]`.
On the empty list the source reads `lorenz[-1].l` of `undefined` and
faults; this is modelled by `none`. -/
noncomputable def interpScan : List LPoint → ℝ → Option ℝ
  | [], _ => none
  | [a], _ => some a.l
  | a :: b :: rest, p =>
    if b.p < p then interpScan (b :: rest) p
    else some (a.l + (p - a.p) / (b.p - a.p) * (b.l - a.l))

/-- `interpolateLorenz(lorenz, p)` of lorenz.js: `0` for `p ≤ 0`, `1`
for `p ≥ 1` (both checked before the curve is inspected), otherwise the
forward scan.  There is no short-curve check in this module-level
function. -/
noncomputable def interpolateLorenz (lorenz : List LPoint) (p : ℝ) : Option ℝ :=
  if p ≤ 0 then some 0
  else if 1 ≤ p then some 1
  else interpScan lorenz p

/-- `LorenzChart.interpolate(lorenz, p)` of chart.js: identical to
`interpolateLorenz` except that it first returns `null` when the curve
has fewer than 2 points. -/
noncomputable def chartInterpolate (lorenz : List LPoint) (p : ℝ) : Option ℝ :=
  if lorenz.length < 2 then none
  else if p ≤ 0 then some 0
  else if 1 ≤ p then some 1
  else interpScan lorenz p

/-! ## C6: Gini bounds -/

/-- Claim C6: for every curve with fewer than 2 points `calculateGini`
returns `null`, and for every curve with at least 2 points it returns a
number in the closed interval `[0, 1]` — the clamp of
`1 - 2 * (trapezoidal area under the curve)` to `[0, 1]`. -/
theorem calculateGini_none_or_bounds (curve : List LPoint) :
    (curve.length < 2 → calculateGini curve = none) ∧
    (2 ≤ curve.length → ∃ g, calculateGini curve = some g ∧
      g = max 0 (min 1 (1 - 2 * trapezoidArea (List.insertionSort leLP
        (if 0.001 < (curve.headI).p ∨ 0.001 < (curve.headI).l
          then ⟨0, 0, none⟩ :: curve else curve)))) ∧
      0 ≤ g ∧ g ≤ 1) := by
  constructor
  · intro h
    simp [calculateGini, h]
  · intro h
    match curve with
    | [] => simp at h
    | x :: xs =>
      refine ⟨_, ?_, rfl, le_max_left _ _, max_le (by norm_num) ((min_le_left _ _).trans le_rfl)⟩
      rw [calculateGini]
      rw [if_neg (by omega)]
      simp [List.headI]

/-- Witness for C6 at concrete curves: the empty curve yields `null`,
and the two-point diagonal yields a Gini in `[0, 1]`. -/
theorem calculateGini_none_or_bounds_at_concrete :
    calculateGini [] = none ∧
    ∃ g, calculateGini [⟨0, 0, none⟩, ⟨1, 1, none⟩] = some g ∧ 0 ≤ g ∧ g ≤ 1 := by
  refine ⟨(calculateGini_none_or_bounds []).1 (by simp), ?_⟩
  obtain ⟨g, hg, _, h0, h1⟩ :=
    (calculateGini_none_or_bounds [⟨0, 0, none⟩, ⟨1, 1, none⟩]).2 (by simp)
  exact ⟨g, hg, h0, h1⟩

/-! ## C10: the `identical incomes` rejection branch is unreachable -/

/-- Claim C10: the rejection branch with reason `Cannot calculate alpha
(identical incomes in top decile)` is unreachable: when execution
reaches the `logRatio` computation the preceding guard guarantees
`0 < minY < maxY`, hence `log (minY / maxY) < 0`, so the
`logRatio === 0` test never succeeds and no input ever produces this
reason. -/
theorem identicalIncomes_unreachable (dist : List LPoint) (sm? nas? : Option ℝ) (gs c : ℝ)
    (r : Rejection) (h : calculateChandySeidel dist sm? nas? gs c = .rejected r) :
    r.reason ≠ .identicalIncomes := by
  rw [calculateChandySeidel.eq_def] at h
  repeat' split at h
  all_goals try exact AdjustmentResult.noConfusion h
  all_goals (injection h with h2; subst h2)
  all_goals try simp
  rename_i hguard hlog
  push_neg at hguard
  obtain ⟨hmin, hmax, hlt⟩ := hguard
  exact absurd hlog (Real.log_neg (div_pos hmin hmax) ((div_lt_one hmax).2 hlt)).ne

/-- Witness for C10 at a concrete input: the empty distribution is
rejected, and its reason is not `identicalIncomes`. -/
theorem identicalIncomes_unreachable_at_concrete :
    calculateChandySeidel [] none none 0 0 =
      .rejected ⟨.invalidDistribution, none, none, none, none⟩ ∧
    (Rejection.mk .invalidDistribution none none none none).reason ≠ .identicalIncomes :=
  ⟨rfl, identicalIncomes_unreachable [] none none 0 0 _ rfl⟩

/-! ## C5: the `NAS <= Survey mean` rejection -/

/-- Claim C5: for every distribution of at least 10 points and positive
`surveyMean`, if `nasMean` is positive and `nasMean ≤ surveyMean`, the
result is Rejected with reason `NAS <= Survey mean (no adjustment
needed)` carrying `surveyMean`, `nasMean`, `gap = 0` and
`gapPercent = 0`, for all values of `gapShare` and `topDecileCutoff`. -/
theorem nasLeSurvey_rejection (dist : List LPoint) (v w gs c : ℝ)
    (hlen : 10 ≤ dist.length) (hv : 0 < v) (hw : 0 < w) (hwv : w ≤ v) :
    calculateChandySeidel dist (some v) (some w) gs c =
      .rejected ⟨.nasLeSurvey, some v, some w, some 0, some 0⟩ := by
  exact (if_neg (not_lt.2 hlen)).trans
    ((if_neg (not_le.2 hv)).trans ((if_neg (not_le.2 hw)).trans (if_pos hwv)))

/-- Witness for C5 at a concrete input: a 10-point distribution with
`surveyMean = 50 > nasMean = 40`. -/
theorem nasLeSurvey_rejection_at_concrete :
    calculateChandySeidel
      [⟨0.1, 0.1, none⟩, ⟨0.2, 0.2, none⟩, ⟨0.3, 0.3, none⟩, ⟨0.4, 0.4, none⟩,
       ⟨0.5, 0.5, none⟩, ⟨0.6, 0.6, none⟩, ⟨0.7, 0.7, none⟩, ⟨0.8, 0.8, none⟩,
       ⟨0.9, 0.9, none⟩, ⟨1, 1, none⟩] (some 50) (some 40) 0.5 0.9 =
      .rejected ⟨.nasLeSurvey, some 50, some 40, some 0, some 0⟩ :=
  nasLeSurvey_rejection _ 50 40 0.5 0.9 (by simp) (by norm_num) (by norm_num) (by norm_num)

/-! ## C4: ordered validations -/

/-- Claim C4: the four input validations of `calculateChandySeidel` are
evaluated in the exact order (1) distribution too short → `Invalid
distribution data`, (2) survey mean missing or `≤ 0` → `Invalid survey
mean`, (3) NAS mean missing or `≤ 0` → `No NAS data available`,
(4) `nasMean ≤ surveyMean`; in particular a distribution that is too
short reports `Invalid distribution data` whatever the (possibly also
invalid) survey mean is. -/
theorem validation_order (dist : List LPoint) (gs c : ℝ) :
    (∀ sm? nas?, dist.length < 10 →
      calculateChandySeidel dist sm? nas? gs c =
        .rejected ⟨.invalidDistribution, none, none, none, none⟩) ∧
    (∀ nas?, 10 ≤ dist.length →
      calculateChandySeidel dist none nas? gs c =
        .rejected ⟨.invalidSurveyMean, none, none, none, none⟩) ∧
    (∀ v nas?, 10 ≤ dist.length → v ≤ 0 →
      calculateChandySeidel dist (some v) nas? gs c =
        .rejected ⟨.invalidSurveyMean, none, none, none, none⟩) ∧
    (∀ v, 10 ≤ dist.length → 0 < v →
      calculateChandySeidel dist (some v) none gs c =
        .rejected ⟨.noNASData, none, none, none, none⟩) ∧
    (∀ v w, 10 ≤ dist.length → 0 < v → w ≤ 0 →
      calculateChandySeidel dist (some v) (some w) gs c =
        .rejected ⟨.noNASData, none, none, none, none⟩) ∧
    (∀ v w, 10 ≤ dist.length → 0 < v → 0 < w → w ≤ v →
      calculateChandySeidel dist (some v) (some w) gs c =
        .rejected ⟨.nasLeSurvey, some v, some w, some 0, some 0⟩) := by
  refine ⟨?_, ?_, ?_, ?_, ?_, ?_⟩
  · intro sm? nas? h
    exact if_pos h
  · intro nas? h
    exact if_neg (not_lt.2 h)
  · intro v nas? h hv
    exact (if_neg (not_lt.2 h)).trans (if_pos hv)
  · intro v h hv
    exact (if_neg (not_lt.2 h)).trans (if_neg (not_le.2 hv))
  · intro v w h hv hw
    exact (if_neg (not_lt.2 h)).trans ((if_neg (not_le.2 hv)).trans (if_pos hw))
  · intro v w h hv hw hwv
    exact (if_neg (not_lt.2 h)).trans
      ((if_neg (not_le.2 hv)).trans ((if_neg (not_le.2 hw)).trans (if_pos hwv)))

/-- Witness for C4 at concrete inputs, notably the empty distribution
with an invalid survey mean reporting the length failure first. -/
theorem validation_order_at_concrete :
    calculateChandySeidel [] (some 0) (some 0) 0.5 0.9 =
      .rejected ⟨.invalidDistribution, none, none, none, none⟩ ∧
    calculateChandySeidel
      [⟨0.1, 0.1, none⟩, ⟨0.2, 0.2, none⟩, ⟨0.3, 0.3, none⟩, ⟨0.4, 0.4, none⟩,
       ⟨0.5, 0.5, none⟩, ⟨0.6, 0.6, none⟩, ⟨0.7, 0.7, none⟩, ⟨0.8, 0.8, none⟩,
       ⟨0.9, 0.9, none⟩, ⟨1, 1, none⟩] (some 0) (some 5) 0.5 0.9 =
      .rejected ⟨.invalidSurveyMean, none, none, none, none⟩ ∧
    calculateChandySeidel
      [⟨0.1, 0.1, none⟩, ⟨0.2, 0.2, none⟩, ⟨0.3, 0.3, none⟩, ⟨0.4, 0.4, none⟩,
       ⟨0.5, 0.5, none⟩, ⟨0.6, 0.6, none⟩, ⟨0.7, 0.7, none⟩, ⟨0.8, 0.8, none⟩,
       ⟨0.9, 0.9, none⟩, ⟨1, 1, none⟩] (some 50) none 0.5 0.9 =
      .rejected ⟨.noNASData, none, none, none, none⟩ :=
  ⟨(validation_order [] 0.5 0.9).1 (some 0) (some 0) (by simp),
   (validation_order _ 0.5 0.9).2.2.1 0 (some 5) (by simp) le_rfl,
   (validation_order _ 0.5 0.9).2.2.2.1 50 (by simp) (by norm_num)⟩

/-! ## Inversion of an accepted run -/

/-- Inverting `calculateChandySeidel ... = accepted a`: every guard on
the way to the acceptance branch must have passed, and `a` is exactly
the record built by `mkAccepted`. -/
theorem accepted_inversion (dist : List LPoint) (sm? nas? : Option ℝ) (gs c : ℝ) (a : Accepted)
    (h : calculateChandySeidel dist sm? nas? gs c = .accepted a) :
    ∃ sm nas top bins,
      sm? = some sm ∧ nas? = some nas ∧
      10 ≤ dist.length ∧ 0 < sm ∧ 0 < nas ∧ sm < nas ∧
      findTop c dist = some (top, bins) ∧
      2 ≤ (relIncomes bins).length ∧
      0 < listMin (relIncomes bins) ∧
      listMin (relIncomes bins) < listMax (relIncomes bins) ∧
      Real.log (listMin (relIncomes bins) / listMax (relIncomes bins)) ≠ 0 ∧
      1 < alphaVal gs nas sm top bins ∧
      a = mkAccepted dist sm nas gs c top bins := by
  rw [calculateChandySeidel.eq_def] at h
  repeat' split at h
  all_goals try exact AdjustmentResult.noConfusion h
  injection h with h2
  subst h2
  rename_i hlen o1 sm hsm o2 nas hnas hle ft top bins heq hbins hguard hlog halpha
  push_neg at hguard
  obtain ⟨hmin, _hmax, hlt⟩ := hguard
  exact ⟨sm, nas, top, bins, rfl, rfl, by omega, not_le.1 hsm, not_le.1 hnas, not_le.1 hle,
    heq, by omega, hmin, hlt, hlog, not_le.1 halpha, rfl⟩

/-- `findTop` soundness: a found pair consists of a suffix of the input
headed by the found point, whose `p` reaches the cutoff. -/
theorem findTop_spec (c : ℝ) (l : List LPoint) (top : LPoint) (bins : List LPoint)
    (h : findTop c l = some (top, bins)) :
    bins <:+ l ∧ (∃ r, bins = top :: r) ∧ c ≤ top.p := by
  induction l with
  | nil => simp [findTop] at h
  | cons d rest ih =>
    rw [findTop] at h
    by_cases hc : c ≤ d.p
    · rw [if_pos hc] at h
      simp only [Option.some.injEq, Prod.mk.injEq] at h
      obtain ⟨h1, h2⟩ := h
      subst h1
      subst h2
      exact ⟨List.suffix_refl _, ⟨rest, rfl⟩, hc⟩
    · rw [if_neg hc] at h
      obtain ⟨hsuf, hex, hcp⟩ := ih h
      exact ⟨hsuf.trans (List.suffix_cons d rest), hex, hcp⟩

/-- When the relative-income list of `top :: r` is nonempty and `p` is
non-decreasing along it, some later point has `p` strictly above
`top.p`. -/
theorem exists_gt_of_relIncomes_ne_nil (top : LPoint) (r : List LPoint)
    (hchain : List.Chain' (fun x y : LPoint => x.p ≤ y.p) (top :: r))
    (hne : relIncomes (top :: r) ≠ []) :
    ∃ y ∈ r, top.p < y.p := by
  induction r generalizing top with
  | nil => simp [relIncomes] at hne
  | cons b r' ih =>
    rw [List.chain'_cons] at hchain
    obtain ⟨htb, hchain'⟩ := hchain
    rw [relIncomes] at hne
    by_cases h0 : 0 < b.p - top.p
    · exact ⟨b, by simp, by linarith⟩
    · rw [if_neg h0, List.nil_append] at hne
      obtain ⟨y, hy, hby⟩ := ih b hchain' hne
      exact ⟨y, by simp [hy], lt_of_le_of_lt htb hby⟩

/-- In a list sorted by the key `p`, every member's `p` is at most the
last element's `p`. -/
theorem sorted_le_getLast (ys : List APoint) (y z : APoint) (hs : List.Sorted leP ys)
    (hy : y ∈ ys) (hz : ys.getLast? = some z) : y.p ≤ z.p := by
  induction ys with
  | nil => cases hy
  | cons a rest ih =>
    rw [List.sorted_cons] at hs
    obtain ⟨ha, hs'⟩ := hs
    cases rest with
    | nil =>
      rw [List.mem_singleton] at hy
      simp only [List.getLast?_singleton, Option.some.injEq] at hz
      subst hy
      subst hz
      exact le_rfl
    | cons b r =>
      rw [List.getLast?_cons_cons] at hz
      rcases List.mem_cons.1 hy with h1 | h2
      · subst h1
        have hzmem : z ∈ b :: r := by
          obtain ⟨hne, hzl⟩ := List.mem_getLast?_eq_getLast (Option.mem_def.2 hz)
          rw [hzl]
          exact List.getLast_mem hne
        exact ha z hzmem
      · exact ih hs' h2 hz

/-- A member whose `p` is strictly below the last element's `p` is never
at the last position, so the in-place `(1, 1)` overwrite keeps it. -/
theorem mem_forceLast_of_lt (ys : List APoint) (x z : APoint)
    (hx : x ∈ ys) (hz : ys.getLast? = some z) (hlt : x.p < z.p) : x ∈ forceLast ys := by
  induction ys with
  | nil => cases hx
  | cons a rest ih =>
    cases rest with
    | nil =>
      rw [List.mem_singleton] at hx
      simp only [List.getLast?_singleton, Option.some.injEq] at hz
      subst hx
      subst hz
      exact absurd hlt (lt_irrefl _)
    | cons b r =>
      rw [List.getLast?_cons_cons] at hz
      rw [forceLast]
      rcases List.mem_cons.1 hx with h1 | h2
      · subst h1
        exact List.mem_cons_self _ _
      · exact List.mem_cons_of_mem _ (ih h2 hz)

/-- The list produced by `forceLast` on a nonempty list ends in a point
with `p = 1` and `l = 1`. -/
theorem forceLast_getLast (ys : List APoint) (hne : ys ≠ []) :
    ∃ z, (forceLast ys).getLast? = some z ∧ z.p = 1 ∧ z.l = 1 := by
  induction ys with
  | nil => exact absurd rfl hne
  | cons a rest ih =>
    cases rest with
    | nil =>
      exact ⟨⟨1, 1, a.w, a.isPareto, a.originalP, a.originalL, a.pPareto, a.lPareto⟩,
        by rw [forceLast, List.getLast?_singleton], rfl, rfl⟩
    | cons b r =>
      obtain ⟨z, hz, hzp, hzl⟩ := ih (by simp)
      refine ⟨z, ?_, hzp, hzl⟩
      rw [forceLast]
      cases hFL : forceLast (b :: r) with
      | nil =>
        rw [hFL] at hz
        simp at hz
      | cons cc s =>
        rw [hFL] at hz
        rw [List.getLast?_cons_cons]
        exact hz

/-- `forceLast` keeps the head of a list with at least two elements. -/
theorem forceLast_head (a b : APoint) (r : List APoint) :
    (forceLast (a :: b :: r)).head? = some a := by
  rw [forceLast, List.head?_cons]

/-- Every synthesized Pareto bin sits at `p ≥ surveyPct`: its local
Pareto coordinate is at least `surveyPctTop`, so the affine placement
puts it above the whole rescaled original curve. -/
theorem paretoBin_p_ge (alpha sTop ratio tL tP sp : ℝ) (N i : ℕ)
    (hsp : 0 ≤ sp) (hsTop : sTop ≤ 1) (htP : tP ≤ 1) :
    sp ≤ (paretoBin alpha sTop ratio tL tP sp N i).p := by
  simp only [paretoBin]
  have hx : 0 ≤ (i : ℝ) / (N : ℝ) := div_nonneg (by positivity) (by positivity)
  nlinarith [mul_nonneg (mul_nonneg (mul_nonneg hsp (sub_nonneg.2 hsTop)) hx)
    (sub_nonneg.2 htP)]

/-- The number of Pareto bins is at least 1. -/
theorem numBinsOf_pos (sTop : ℝ) : 1 ≤ numBinsOf sTop := by
  rw [numBinsOf]
  omega

/-- The last synthesized Pareto bin (index `numBins` of `numBins`) is a
member of the generated tail. -/
theorem paretoBin_last_mem (alpha sTop ratio tL tP sp : ℝ) :
    paretoBin alpha sTop ratio tL tP sp (numBinsOf sTop) (numBinsOf sTop) ∈
      generateParetoTail alpha sTop ratio tL tP sp := by
  have hN := numBinsOf_pos sTop
  rw [generateParetoTail]
  refine List.mem_map.2 ⟨numBinsOf sTop - 1, List.mem_range.2 (by omega), ?_⟩
  congr 1
  omega

/-- The last synthesized Pareto bin sits at exactly `p = 1` (in exact
arithmetic): its local coordinate is `pPareto = 1` and the affine
placement sends it to `surveyPct * (1 + (1-topDecileP)*(1-surveyPctTop))
= 1`. -/
theorem paretoBin_last_p (alpha sTop ratio tL tP : ℝ)
    (hden : 1 + (1 - tP) * (1 - sTop) ≠ 0) :
    (paretoBin alpha sTop ratio tL tP (surveyPctOf tP sTop)
      (numBinsOf sTop) (numBinsOf sTop)).p = 1 := by
  simp only [paretoBin, surveyPctOf]
  have hN : ((numBinsOf sTop : ℕ) : ℝ) ≠ 0 := by
    have := numBinsOf_pos sTop
    positivity
  rw [div_self hN]
  field_simp
  ring

/-- Core of C1: with `topDecileP < 1` and `surveyPctTop < 1`, every
rescaled original point (whose source `p` is at most 1) survives the
merge, sort, origin-prepend and final `(1, 1)` overwrite of
`combineDistributions`: its `p` is strictly below the last merged
point's `p`, which is at least the last Pareto bin's exact `p = 1`. -/
theorem combine_keeps_rescaled (dist : List LPoint) (alpha sTop ratio tP tL : ℝ)
    (htp1 : tP < 1) (hsTop1 : sTop < 1)
    (hp1 : ∀ e ∈ dist, e.p ≤ 1) (d : LPoint) (hd : d ∈ dist) :
    rescalePoint (surveyPctOf tP sTop) ratio d ∈
      combineDistributions (dist.map (rescalePoint (surveyPctOf tP sTop) ratio))
        (generateParetoTail alpha sTop ratio tL tP (surveyPctOf tP sTop)) := by
  have hu : 0 < (1 - tP) * (1 - sTop) := mul_pos (by linarith) (by linarith)
  have hden : (0:ℝ) < 1 + (1 - tP) * (1 - sTop) := by linarith
  have hsp_pos : 0 < surveyPctOf tP sTop := by
    rw [surveyPctOf]
    positivity
  have hsp_lt1 : surveyPctOf tP sTop < 1 := by
    rw [surveyPctOf]
    rw [div_lt_one hden]
    linarith
  have hxp_lt1 : (rescalePoint (surveyPctOf tP sTop) ratio d).p < 1 := by
    have : d.p * surveyPctOf tP sTop ≤ 1 * surveyPctOf tP sTop :=
      mul_le_mul_of_nonneg_right (hp1 d hd) hsp_pos.le
    have := this.trans_lt (by rw [one_mul]; exact hsp_lt1)
    exact this
  have htstar_p : (paretoBin alpha sTop ratio tL tP (surveyPctOf tP sTop)
      (numBinsOf sTop) (numBinsOf sTop)).p = 1 :=
    paretoBin_last_p alpha sTop ratio tL tP (ne_of_gt hden)
  have hx_mem : rescalePoint (surveyPctOf tP sTop) ratio d ∈
      dist.map (rescalePoint (surveyPctOf tP sTop) ratio) ++
        generateParetoTail alpha sTop ratio tL tP (surveyPctOf tP sTop) :=
    List.mem_append_left _ (List.mem_map_of_mem _ hd)
  have ht_mem : paretoBin alpha sTop ratio tL tP (surveyPctOf tP sTop)
      (numBinsOf sTop) (numBinsOf sTop) ∈
      dist.map (rescalePoint (surveyPctOf tP sTop) ratio) ++
        generateParetoTail alpha sTop ratio tL tP (surveyPctOf tP sTop) :=
    List.mem_append_right _ (paretoBin_last_mem alpha sTop ratio tL tP (surveyPctOf tP sTop))
  rw [combineDistributions]
  have hperm := List.perm_insertionSort leP
    (dist.map (rescalePoint (surveyPctOf tP sTop) ratio) ++
      generateParetoTail alpha sTop ratio tL tP (surveyPctOf tP sTop))
  have hsorted := List.sorted_insertionSort leP
    (dist.map (rescalePoint (surveyPctOf tP sTop) ratio) ++
      generateParetoTail alpha sTop ratio tL tP (surveyPctOf tP sTop))
  have hx_sorted := hperm.mem_iff.2 hx_mem
  have ht_sorted := hperm.mem_iff.2 ht_mem
  cases hS : List.insertionSort leP
      (dist.map (rescalePoint (surveyPctOf tP sTop) ratio) ++
        generateParetoTail alpha sTop ratio tL tP (surveyPctOf tP sTop)) with
  | nil =>
    rw [hS] at hx_sorted
    cases hx_sorted
  | cons s0 srest =>
    rw [hS] at hx_sorted ht_sorted hsorted
    have hglast : (s0 :: srest).getLast? =
        some ((s0 :: srest).getLast (by simp)) :=
      List.getLast?_eq_getLast_of_ne_nil (by simp)
    have hz1 : 1 ≤ ((s0 :: srest).getLast (by simp)).p := by
      have := sorted_le_getLast (s0 :: srest) _ _ hsorted ht_sorted hglast
      rw [htstar_p] at this
      exact this
    have hxz : (rescalePoint (surveyPctOf tP sTop) ratio d).p <
        ((s0 :: srest).getLast (by simp)).p := lt_of_lt_of_le hxp_lt1 hz1
    have hred : (match s0 :: srest with
        | [] => [originPoint]
        | x :: xs => if (0.001:ℝ) < x.p then originPoint :: x :: xs else x :: xs) =
        if (0.001:ℝ) < s0.p then originPoint :: s0 :: srest else s0 :: srest := rfl
    rw [hred]
    by_cases hpre : (0.001 : ℝ) < s0.p
    · rw [if_pos hpre]
      exact mem_forceLast_of_lt _ _ _ (List.mem_cons_of_mem _ hx_sorted)
        (by rw [List.getLast?_cons_cons]; exact hglast) hxz
    · rw [if_neg hpre]
      exact mem_forceLast_of_lt _ _ _ hx_sorted hglast hxz

/-! ## C1: every rescaled original point survives into `adjustedDist` -/

/-- Claim C1: for every accepted adjustment of a distribution that is
non-decreasing in `p` with `p ≤ 1` throughout, and every original point
`(p, l)`, the returned `adjustedDist` contains a point with
`p = originalP · surveyPct` and `l = originalL · ratio` — the forcing
of the last merged point to `(1, 1)` never overwrites a rescaled
original point (in exact real arithmetic the containment is exact,
hence within the claimed `1e-9` tolerance). -/
theorem rescaled_point_mem_adjustedDist
    (dist : List LPoint) (sm? nas? : Option ℝ) (gs c : ℝ) (a : Accepted)
    (hchain : List.Chain' (fun x y : LPoint => x.p ≤ y.p) dist)
    (hp1 : ∀ e ∈ dist, e.p ≤ 1)
    (hacc : calculateChandySeidel dist sm? nas? gs c = .accepted a)
    (d : LPoint) (hd : d ∈ dist) :
    ∃ q ∈ a.adjustedDist, q.p = d.p * a.surveyPct ∧ q.l = d.l * a.ratio := by
  obtain ⟨sm, nas, top, bins, hsmq, hnasq, hlen, hsm, hnas, hsmnas, hft, hbins, hmin, hminmax,
    hlog, halpha, ha⟩ := accepted_inversion dist sm? nas? gs c a hacc
  subst ha
  obtain ⟨hsuf, ⟨rr, hbins_eq⟩, hcut⟩ := findTop_spec c dist top bins hft
  have hchain_bins : List.Chain' (fun x y : LPoint => x.p ≤ y.p) bins := hchain.suffix hsuf
  have hne : relIncomes bins ≠ [] := by
    intro hnil
    rw [hnil] at hbins
    simp at hbins
  have htp1 : top.p < 1 := by
    rw [hbins_eq] at hchain_bins hne
    obtain ⟨y, hy, hty⟩ := exists_gt_of_relIncomes_ne_nil top rr hchain_bins hne
    have hymem : y ∈ dist := hsuf.subset (hbins_eq ▸ List.mem_cons_of_mem top hy)
    exact lt_of_lt_of_le hty (hp1 y hymem)
  have hmax : 0 < listMax (relIncomes bins) := hmin.trans hminmax
  have hr0 : 0 < listMin (relIncomes bins) / listMax (relIncomes bins) := div_pos hmin hmax
  have hrpow : 0 < (listMin (relIncomes bins) / listMax (relIncomes bins)) ^
      alphaVal gs nas sm top bins := Real.rpow_pos_of_pos hr0 _
  have hsTop1 : surveyPctTopVal gs nas sm top bins < 1 := by
    rw [surveyPctTopVal, surveyPctTopOf]
    linarith
  exact ⟨rescalePoint (surveyPctVal gs nas sm top bins) (ratioOf gs (nas / sm)) d,
    combine_keeps_rescaled dist (alphaVal gs nas sm top bins)
      (surveyPctTopVal gs nas sm top bins) (ratioOf gs (nas / sm)) top.p top.l
      htp1 hsTop1 hp1 d hd, rfl, rfl⟩

/-- Scalar analysis of an accepted run: with `0 < minY < maxY`,
`0 < surveyMean < nasMean`, `0 ≤ gapShare`, `0 ≤ topDecileL ≤
topDecileP`, `0 ≤ topDecileP < 1` and computed `alpha > 1`, the gap
attribution `gapShare·(naRatio−1)` is strictly positive,
`(minY/maxY)^(alpha−1) = 1 − ratio2` (so `surveyPctTop ∈ (0,1)`), and
`0 < ratio ≤ surveyPct` with `1/2 ≤ surveyPct < 1`. -/
theorem accepted_scalar_facts (sm nas gs : ℝ) (top : LPoint) (bins : List LPoint)
    (hsm : 0 < sm) (hsmnas : sm < nas) (hgs : 0 ≤ gs)
    (hmin : 0 < listMin (relIncomes bins))
    (hminmax : listMin (relIncomes bins) < listMax (relIncomes bins))
    (htl0 : 0 ≤ top.l) (htlp : top.l ≤ top.p) (htp1 : top.p < 1)
    (halpha : 1 < alphaVal gs nas sm top bins) :
    0 < ratioOf gs (nas / sm) ∧
    ratioOf gs (nas / sm) ≤ surveyPctVal gs nas sm top bins ∧
    0 < surveyPctTopVal gs nas sm top bins ∧
    surveyPctTopVal gs nas sm top bins < 1 ∧
    1 / 2 ≤ surveyPctVal gs nas sm top bins ∧
    surveyPctVal gs nas sm top bins < 1 := by
  have hmax : 0 < listMax (relIncomes bins) := hmin.trans hminmax
  have hr0 : 0 < listMin (relIncomes bins) / listMax (relIncomes bins) := div_pos hmin hmax
  have hr1 : listMin (relIncomes bins) / listMax (relIncomes bins) < 1 :=
    (div_lt_one hmax).2 hminmax
  have hlogr : Real.log (listMin (relIncomes bins) / listMax (relIncomes bins)) < 0 :=
    Real.log_neg hr0 hr1
  have hnaR : 1 < nas / sm := (one_lt_div hsm).2 hsmnas
  have hg0 : 0 ≤ gs * (nas / sm - 1) := mul_nonneg hgs (by linarith)
  have htds : 0 < 1 - top.l := by linarith
  have hAV : alphaVal gs nas sm top bins =
      Real.log (1 - ratio2Of top.l gs (nas / sm)) /
        Real.log (listMin (relIncomes bins) / listMax (relIncomes bins)) + 1 := rfl
  have hg : 0 < gs * (nas / sm - 1) := by
    rcases hg0.lt_or_eq with h | h
    · exact h
    · exfalso
      have hr2 : ratio2Of top.l gs (nas / sm) = 1 := by
        rw [ratio2Of, ← h, add_zero, div_self (ne_of_gt htds)]
      rw [hAV, hr2] at halpha
      norm_num [Real.log_zero] at halpha
  have htdsg : 0 < (1 - top.l) + gs * (nas / sm - 1) := by linarith
  have h1r2 : 1 - ratio2Of top.l gs (nas / sm) =
      gs * (nas / sm - 1) / ((1 - top.l) + gs * (nas / sm - 1)) := by
    rw [ratio2Of, eq_div_iff (ne_of_gt htdsg), sub_mul,
      div_mul_cancel₀ _ (ne_of_gt htdsg)]
    ring
  have h1r2_pos : 0 < 1 - ratio2Of top.l gs (nas / sm) := by
    rw [h1r2]
    exact div_pos hg htdsg
  have hpow1 : (listMin (relIncomes bins) / listMax (relIncomes bins)) ^
      (alphaVal gs nas sm top bins - 1) = 1 - ratio2Of top.l gs (nas / sm) := by
    rw [hAV, add_sub_cancel_right, Real.rpow_def_of_pos hr0, mul_comm,
      div_mul_cancel₀ _ (ne_of_lt hlogr)]
    exact Real.exp_log h1r2_pos
  have hpowa : (listMin (relIncomes bins) / listMax (relIncomes bins)) ^
      alphaVal gs nas sm top bins =
      listMin (relIncomes bins) / listMax (relIncomes bins) *
        (1 - ratio2Of top.l gs (nas / sm)) := by
    have hsplit : alphaVal gs nas sm top bins = (alphaVal gs nas sm top bins - 1) + 1 := by
      ring
    rw [hsplit, Real.rpow_add hr0, hpow1, Real.rpow_one]
    ring
  have hST : surveyPctTopVal gs nas sm top bins =
      1 - (listMin (relIncomes bins) / listMax (relIncomes bins)) ^
        alphaVal gs nas sm top bins := rfl
  have hrpowpos : 0 < (listMin (relIncomes bins) / listMax (relIncomes bins)) ^
      alphaVal gs nas sm top bins := Real.rpow_pos_of_pos hr0 _
  have hrpowlt1 : (listMin (relIncomes bins) / listMax (relIncomes bins)) ^
      alphaVal gs nas sm top bins < 1 :=
    Real.rpow_lt_one hr0.le hr1 (by linarith)
  have hsT0 : 0 < surveyPctTopVal gs nas sm top bins := by
    rw [hST]
    linarith
  have hsT1 : surveyPctTopVal gs nas sm top bins < 1 := by
    rw [hST]
    linarith
  have hu_eq : (1 - top.p) * (1 - surveyPctTopVal gs nas sm top bins) =
      (1 - top.p) * (listMin (relIncomes bins) / listMax (relIncomes bins) *
        (gs * (nas / sm - 1) / ((1 - top.l) + gs * (nas / sm - 1)))) := by
    rw [hST, sub_sub_cancel, hpowa, h1r2]
  have hfac : (1 - top.p) * (listMin (relIncomes bins) / listMax (relIncomes bins)) ≤
      (1 - top.l) + gs * (nas / sm - 1) := by
    calc (1 - top.p) * (listMin (relIncomes bins) / listMax (relIncomes bins)) ≤
        (1 - top.p) * 1 := mul_le_mul_of_nonneg_left hr1.le (by linarith)
      _ = 1 - top.p := mul_one _
      _ ≤ 1 - top.l := by linarith
      _ ≤ (1 - top.l) + gs * (nas / sm - 1) := by linarith
  have hule : (1 - top.p) * (1 - surveyPctTopVal gs nas sm top bins) ≤
      gs * (nas / sm - 1) := by
    rw [hu_eq, ← mul_assoc]
    calc (1 - top.p) * (listMin (relIncomes bins) / listMax (relIncomes bins)) *
        (gs * (nas / sm - 1) / ((1 - top.l) + gs * (nas / sm - 1))) ≤
        ((1 - top.l) + gs * (nas / sm - 1)) *
          (gs * (nas / sm - 1) / ((1 - top.l) + gs * (nas / sm - 1))) :=
        mul_le_mul_of_nonneg_right hfac (div_nonneg hg.le htdsg.le)
      _ = gs * (nas / sm - 1) := by
        rw [mul_comm, div_mul_cancel₀ _ (ne_of_gt htdsg)]
  have hu_pos : 0 < (1 - top.p) * (1 - surveyPctTopVal gs nas sm top bins) :=
    mul_pos (by linarith) (by linarith)
  have hu1 : (1 - top.p) * (1 - surveyPctTopVal gs nas sm top bins) ≤ 1 :=
    mul_le_one₀ (by linarith) (by linarith) (by linarith)
  have hsp_eq : surveyPctVal gs nas sm top bins =
      1 / (1 + (1 - top.p) * (1 - surveyPctTopVal gs nas sm top bins)) := rfl
  refine ⟨?_, ?_, hsT0, hsT1, ?_, ?_⟩
  · rw [ratioOf]
    exact div_pos one_pos (by linarith)
  · rw [ratioOf, hsp_eq]
    exact one_div_le_one_div_of_le (by linarith) (by linarith)
  · rw [hsp_eq]
    exact one_div_le_one_div_of_le (by linarith) (by linarith)
  · rw [hsp_eq, div_lt_one (by linarith)]
    linarith

/-! ## C2: boundary anchoring of the adjusted distribution -/

/-- Claim C2: for every accepted adjustment of a valid Lorenz input
(`p` non-decreasing, `0 ≤ l ≤ p ≤ 1` pointwise, `0 ≤ gapShare`), the
first point of `adjustedDist` equals `(0, 0)` within the source's own
origin tolerance `0.001` (exactly `(0, 0)` when the origin is
prepended), and the last point equals `(1, 1)` exactly. -/
theorem boundary_anchoring
    (dist : List LPoint) (sm? nas? : Option ℝ) (gs c : ℝ) (a : Accepted)
    (hchain : List.Chain' (fun x y : LPoint => x.p ≤ y.p) dist)
    (hp : ∀ e ∈ dist, 0 ≤ e.p ∧ e.p ≤ 1)
    (hl : ∀ e ∈ dist, 0 ≤ e.l ∧ e.l ≤ e.p)
    (hgs : 0 ≤ gs)
    (hacc : calculateChandySeidel dist sm? nas? gs c = .accepted a) :
    ∃ x y, a.adjustedDist.head? = some x ∧
      0 ≤ x.p ∧ x.p ≤ 0.001 ∧ 0 ≤ x.l ∧ x.l ≤ 0.001 ∧
      a.adjustedDist.getLast? = some y ∧ y.p = 1 ∧ y.l = 1 := by
  obtain ⟨sm, nas, top, bins, hsmq, hnasq, hlen, hsm, hnas, hsmnas, hft, hbins, hmin, hminmax,
    hlog, halpha, ha⟩ := accepted_inversion dist sm? nas? gs c a hacc
  subst ha
  obtain ⟨hsuf, ⟨rr, hbins_eq⟩, hcut⟩ := findTop_spec c dist top bins hft
  have htop_mem : top ∈ dist := hsuf.subset (hbins_eq ▸ List.mem_cons_self top rr)
  have hchain_bins : List.Chain' (fun x y : LPoint => x.p ≤ y.p) bins := hchain.suffix hsuf
  have hne : relIncomes bins ≠ [] := by
    intro hnil
    rw [hnil] at hbins
    simp at hbins
  have htp1 : top.p < 1 := by
    rw [hbins_eq] at hchain_bins hne
    obtain ⟨z, hz, htz⟩ := exists_gt_of_relIncomes_ne_nil top rr hchain_bins hne
    have hzmem : z ∈ dist := hsuf.subset (hbins_eq ▸ List.mem_cons_of_mem top hz)
    exact lt_of_lt_of_le htz (hp z hzmem).2
  obtain ⟨hrat_pos, hrat_le, hsT0, hsT1, hsp_half, hsp_lt1⟩ :=
    accepted_scalar_facts sm nas gs top bins hsm hsmnas hgs hmin hminmax
      (hl top htop_mem).1 (hl top htop_mem).2 htp1 halpha
  set spv := surveyPctVal gs nas sm top bins with hspv
  set rv := ratioOf gs (nas / sm) with hrv
  set av := alphaVal gs nas sm top bins with hav
  set stv := surveyPctTopVal gs nas sm top bins with hstv
  have hsp_pos : (0:ℝ) < spv := lt_of_lt_of_le (by norm_num) hsp_half
  have hAD : (mkAccepted dist sm nas gs c top bins).adjustedDist =
      combineDistributions (dist.map (rescalePoint spv rv))
        (generateParetoTail av stv rv top.l top.p spv) := rfl
  rw [hAD]
  rw [combineDistributions]
  have hperm := List.perm_insertionSort leP
    (dist.map (rescalePoint spv rv) ++ generateParetoTail av stv rv top.l top.p spv)
  have hsorted := List.sorted_insertionSort leP
    (dist.map (rescalePoint spv rv) ++ generateParetoTail av stv rv top.l top.p spv)
  have hlen_sorted : 11 ≤ (List.insertionSort leP
      (dist.map (rescalePoint spv rv) ++
        generateParetoTail av stv rv top.l top.p spv)).length := by
    rw [hperm.length_eq, List.length_append, List.length_map]
    have htail_len : 1 ≤ (generateParetoTail av stv rv top.l top.p spv).length := by
      rw [generateParetoTail, List.length_map, List.length_range]
      exact numBinsOf_pos stv
    omega
  cases hS : List.insertionSort leP
      (dist.map (rescalePoint spv rv) ++ generateParetoTail av stv rv top.l top.p spv) with
  | nil =>
    rw [hS] at hlen_sorted
    simp at hlen_sorted
  | cons s0 srest =>
    rw [hS] at hlen_sorted
    have hs0_comb : s0 ∈ dist.map (rescalePoint spv rv) ++
        generateParetoTail av stv rv top.l top.p spv :=
      hperm.mem_iff.1 (by rw [hS]; exact List.mem_cons_self _ _)
    cases srest with
    | nil => simp at hlen_sorted
    | cons s1 srest2 =>
      have hred : (match s0 :: s1 :: srest2 with
          | [] => [originPoint]
          | x :: xs => if (0.001:ℝ) < x.p then originPoint :: x :: xs else x :: xs) =
          if (0.001:ℝ) < s0.p then originPoint :: s0 :: s1 :: srest2
          else s0 :: s1 :: srest2 := rfl
      rw [hred]
      by_cases hpre : (0.001:ℝ) < s0.p
      · rw [if_pos hpre]
        obtain ⟨y, hy, hyp, hyl⟩ := forceLast_getLast (originPoint :: s0 :: s1 :: srest2)
          (by simp)
        exact ⟨originPoint, y, forceLast_head originPoint s0 (s1 :: srest2), le_rfl,
          by norm_num [originPoint], le_rfl, by norm_num [originPoint], hy, hyp, hyl⟩
      · rw [if_neg hpre]
        rcases List.mem_append.1 hs0_comb with hres | htail
        · obtain ⟨e, he, heq⟩ := List.mem_map.1 hres
          obtain ⟨y, hy, hyp, hyl⟩ := forceLast_getLast (s0 :: s1 :: srest2) (by simp)
          have hs0p : 0 ≤ s0.p := by
            rw [← heq]
            exact mul_nonneg (hp e he).1 hsp_pos.le
          have hs0l : 0 ≤ s0.l := by
            rw [← heq]
            exact mul_nonneg (hl e he).1 hrat_pos.le
          have hlp : s0.l ≤ s0.p := by
            rw [← heq]
            exact mul_le_mul (hl e he).2 hrat_le hrat_pos.le (hp e he).1
          exact ⟨s0, y, forceLast_head s0 s1 srest2, hs0p, not_lt.1 hpre, hs0l,
            hlp.trans (not_lt.1 hpre), hy, hyp, hyl⟩
        · exfalso
          rw [generateParetoTail] at htail
          obtain ⟨j, _hj, heq⟩ := List.mem_map.1 htail
          have hge := paretoBin_p_ge av stv rv top.l top.p spv (numBinsOf stv) (j + 1)
            hsp_pos.le hsT1.le htp1.le
          rw [heq] at hge
          exact hpre (lt_of_lt_of_le (by norm_num) (hsp_half.trans hge))

/-! ## C3: alpha admissibility -/

/-- Claim C3: an adjustment is accepted only when the computed alpha
exceeds 1 (finiteness is automatic over `ℝ`); when every earlier
validation passes but the computed alpha is `≤ 1`, the result is
Rejected with the `invalidAlpha` reason carrying that computed alpha
(rendered by the source as `Invalid Pareto alpha ((...).toFixed(3)
<= 1)`), still carrying `surveyMean`, `nasMean`, `gap` and
`gapPercent`. -/
theorem alpha_admissibility :
    (∀ (dist : List LPoint) (sm? nas? : Option ℝ) (gs c : ℝ) (a : Accepted),
      calculateChandySeidel dist sm? nas? gs c = .accepted a → 1 < a.alpha) ∧
    (∀ (dist : List LPoint) (v w gs c : ℝ) (top : LPoint) (bins : List LPoint),
      10 ≤ dist.length → 0 < v → 0 < w → v < w →
      findTop c dist = some (top, bins) →
      2 ≤ (relIncomes bins).length →
      0 < listMin (relIncomes bins) → 0 < listMax (relIncomes bins) →
      listMin (relIncomes bins) < listMax (relIncomes bins) →
      Real.log (listMin (relIncomes bins) / listMax (relIncomes bins)) ≠ 0 →
      alphaVal gs w v top bins ≤ 1 →
      calculateChandySeidel dist (some v) (some w) gs c =
        .rejected ⟨.invalidAlpha (alphaVal gs w v top bins), some v, some w,
          some (w - v), some ((w - v) / v * 100)⟩) := by
  constructor
  · intro dist sm? nas? gs c a hacc
    obtain ⟨sm, nas, top, bins, _, _, _, _, _, _, _, _, _, _, _, halpha, ha⟩ :=
      accepted_inversion dist sm? nas? gs c a hacc
    subst ha
    exact halpha
  · intro dist v w gs c top bins hlen hv hw hvw hft hbins hmin hmax hminmax hlog hle
    rw [calculateChandySeidel.eq_def, if_neg (by omega)]
    show (if v ≤ 0 then _ else _) = _
    rw [if_neg (not_le.2 hv)]
    show (if w ≤ 0 then _ else _) = _
    rw [if_neg (not_le.2 hw), if_neg (not_le.2 hvw), hft]
    show (if (relIncomes bins).length < 2 then _ else _) = _
    rw [if_neg (by omega), if_neg (by push_neg; exact ⟨hmin, hmax, hminmax⟩),
      if_neg hlog, if_pos hle]

/-! ## C9: the concrete 40/60 scenario -/

/-- Claim C9: for any input with `surveyMean = 40`, `nasMean = 60`,
`gapShare = 0.5` and `topDecileCutoff = 0.9` on which the adjustment is
accepted, `naRatio = nasMean/surveyMean = 1.5`,
`ratio = 1/(1 + 0.5·0.5) = 0.8` and `adjustedMean = 40/0.8 = 50`. -/
theorem concrete_scenario_ratios (dist : List LPoint) (a : Accepted)
    (hacc : calculateChandySeidel dist (some 40) (some 60) 0.5 0.9 = .accepted a) :
    a.nasMean / a.surveyMean = 1.5 ∧ a.ratio = 0.8 ∧ a.adjustedMean = 50 := by
  obtain ⟨sm, nas, top, bins, hsmq, hnasq, _, _, _, _, _, _, _, _, _, _, ha⟩ :=
    accepted_inversion dist (some 40) (some 60) 0.5 0.9 a hacc
  injection hsmq with h40
  injection hnasq with h60
  subst h40
  subst h60
  subst ha
  refine ⟨by norm_num [mkAccepted], ?_, ?_⟩
  · show ratioOf 0.5 ((60:ℝ) / 40) = 0.8
    rw [ratioOf]
    norm_num
  · show (40:ℝ) / ratioOf 0.5 ((60:ℝ) / 40) = 50
    rw [ratioOf]
    norm_num

/-! ## A concrete distribution on which the adjustment is accepted -/

/-- A concrete 11-point Lorenz distribution (valid: `p` increasing,
`0 ≤ l ≤ p ≤ 1`) whose top decile has relative-income densities `5` and
`10`, so that with `surveyMean = 40`, `nasMean = 60`, `gapShare = 0.5`
the computed alpha is exactly `log(1/4)/log(1/2) + 1 = 3`. -/
noncomputable def cDist : List LPoint :=
  [⟨0.1, 0.01, none⟩, ⟨0.2, 0.03, none⟩, ⟨0.3, 0.05, none⟩, ⟨0.4, 0.08, none⟩,
   ⟨0.5, 0.11, none⟩, ⟨0.6, 0.14, none⟩, ⟨0.7, 0.18, none⟩, ⟨0.8, 0.21, none⟩,
   ⟨0.9, 0.25, none⟩, ⟨0.95, 0.5, none⟩, ⟨1, 1, none⟩]

/-- The top-decile point of `cDist` at cutoff `0.9`. -/
noncomputable def cTop : LPoint := ⟨0.9, 0.25, none⟩

/-- The top-decile slice of `cDist` at cutoff `0.9`. -/
noncomputable def cBins : List LPoint :=
  [⟨0.9, 0.25, none⟩, ⟨0.95, 0.5, none⟩, ⟨1, 1, none⟩]

theorem cDist_findTop : findTop 0.9 cDist = some (cTop, cBins) := by
  norm_num [cDist, cTop, cBins, findTop]

theorem cBins_relIncomes : relIncomes cBins = [5, 10] := by
  norm_num [cBins, relIncomes]

theorem cBins_listMin : listMin (relIncomes cBins) = 5 := by
  rw [cBins_relIncomes]
  norm_num [listMin]

theorem cBins_listMax : listMax (relIncomes cBins) = 10 := by
  rw [cBins_relIncomes]
  norm_num [listMax]

theorem log_half_neg : Real.log ((1:ℝ)/2) < 0 := Real.log_neg (by norm_num) (by norm_num)

theorem cBins_log_ne :
    Real.log (listMin (relIncomes cBins) / listMax (relIncomes cBins)) ≠ 0 := by
  rw [cBins_listMin, cBins_listMax, show (5:ℝ)/10 = 1/2 by norm_num]
  exact log_half_neg.ne

theorem cDist_alphaVal : alphaVal 0.5 60 40 cTop cBins = 3 := by
  rw [alphaVal, cBins_listMin, cBins_listMax, alphaOf]
  have h1 : ratio2Of cTop.l 0.5 ((60:ℝ)/40) = 3/4 := by
    rw [ratio2Of]
    norm_num [cTop]
  rw [h1, show (1:ℝ) - 3/4 = 1/4 by norm_num, show (5:ℝ)/10 = 1/2 by norm_num]
  have h4 : Real.log ((1:ℝ)/4) = 2 * Real.log (1/2) := by
    rw [show ((1:ℝ)/4) = (1/2)^2 by norm_num, Real.log_pow]
    push_cast
    ring
  rw [h4, mul_div_assoc, div_self log_half_neg.ne]
  norm_num

theorem cDist_guard2 :
    ¬(listMin (relIncomes cBins) ≤ 0 ∨ listMax (relIncomes cBins) ≤ 0 ∨
      listMax (relIncomes cBins) ≤ listMin (relIncomes cBins)) := by
  rw [cBins_listMin, cBins_listMax]
  norm_num

/-- `calculateChandySeidel` accepts `cDist` with `surveyMean = 40`,
`nasMean = 60`, `gapShare = 0.5`, cutoff `0.9`. -/
theorem cDist_accepts :
    calculateChandySeidel cDist (some 40) (some 60) 0.5 0.9 =
      .accepted (mkAccepted cDist 40 60 0.5 0.9 cTop cBins) := by
  rw [calculateChandySeidel.eq_def, if_neg (by norm_num [cDist])]
  show (if (40:ℝ) ≤ 0 then _ else _) = _
  rw [if_neg (by norm_num)]
  show (if (60:ℝ) ≤ 0 then _ else _) = _
  rw [if_neg (by norm_num), if_neg (by norm_num : ¬(60:ℝ) ≤ 40), cDist_findTop]
  show (if (relIncomes cBins).length < 2 then _ else _) = _
  rw [if_neg (by rw [cBins_relIncomes]; norm_num), if_neg cDist_guard2,
    if_neg cBins_log_ne, if_neg (by rw [cDist_alphaVal]; norm_num)]

theorem cDist_chain : List.Chain' (fun x y : LPoint => x.p ≤ y.p) cDist := by
  norm_num [cDist, List.chain'_cons, List.chain'_singleton]

theorem cDist_p_bounds : ∀ e ∈ cDist, 0 ≤ e.p ∧ e.p ≤ 1 := by
  intro e he
  simp only [cDist] at he
  fin_cases he <;> norm_num

theorem cDist_l_bounds : ∀ e ∈ cDist, 0 ≤ e.l ∧ e.l ≤ e.p := by
  intro e he
  simp only [cDist] at he
  fin_cases he <;> norm_num

/-- Witness for C1 at the concrete accepted input: the rescaled image
of the original point `(0.9, 0.25)` is present in `adjustedDist`. -/
theorem rescaled_point_mem_adjustedDist_at_concrete :
    ∃ q ∈ (mkAccepted cDist 40 60 0.5 0.9 cTop cBins).adjustedDist,
      q.p = 0.9 * (mkAccepted cDist 40 60 0.5 0.9 cTop cBins).surveyPct ∧
      q.l = 0.25 * (mkAccepted cDist 40 60 0.5 0.9 cTop cBins).ratio := by
  have h := rescaled_point_mem_adjustedDist cDist (some 40) (some 60) 0.5 0.9
    (mkAccepted cDist 40 60 0.5 0.9 cTop cBins) cDist_chain
    (fun e he => (cDist_p_bounds e he).2) cDist_accepts ⟨0.9, 0.25, none⟩
    (by simp [cDist])
  exact h

/-- Witness for C2 at the concrete accepted input. -/
theorem boundary_anchoring_at_concrete :
    ∃ x y, (mkAccepted cDist 40 60 0.5 0.9 cTop cBins).adjustedDist.head? = some x ∧
      0 ≤ x.p ∧ x.p ≤ 0.001 ∧ 0 ≤ x.l ∧ x.l ≤ 0.001 ∧
      (mkAccepted cDist 40 60 0.5 0.9 cTop cBins).adjustedDist.getLast? = some y ∧
      y.p = 1 ∧ y.l = 1 :=
  boundary_anchoring cDist (some 40) (some 60) 0.5 0.9
    (mkAccepted cDist 40 60 0.5 0.9 cTop cBins) cDist_chain cDist_p_bounds cDist_l_bounds
    (by norm_num) cDist_accepts

/-- Witness for C9 at the concrete accepted input. -/
theorem concrete_scenario_ratios_at_concrete :
    (mkAccepted cDist 40 60 0.5 0.9 cTop cBins).nasMean /
        (mkAccepted cDist 40 60 0.5 0.9 cTop cBins).surveyMean = 1.5 ∧
      (mkAccepted cDist 40 60 0.5 0.9 cTop cBins).ratio = 0.8 ∧
      (mkAccepted cDist 40 60 0.5 0.9 cTop cBins).adjustedMean = 50 :=
  concrete_scenario_ratios cDist (mkAccepted cDist 40 60 0.5 0.9 cTop cBins) cDist_accepts

/-- A concrete 11-point distribution whose top-decile point already has
`l = 1` (`topDecileShare = 0`), so `ratio2 = 0` and the computed alpha
is `log(1)/log(1/2) + 1 = 1`, hitting the `alpha ≤ 1` rejection. -/
noncomputable def cDist2 : List LPoint :=
  [⟨0.1, 0.01, none⟩, ⟨0.2, 0.03, none⟩, ⟨0.3, 0.05, none⟩, ⟨0.4, 0.08, none⟩,
   ⟨0.5, 0.11, none⟩, ⟨0.6, 0.14, none⟩, ⟨0.7, 0.18, none⟩, ⟨0.8, 0.21, none⟩,
   ⟨0.9, 1, none⟩, ⟨0.95, 1.2, none⟩, ⟨1, 1.6, none⟩]

/-- The top-decile point of `cDist2` at cutoff `0.9`. -/
noncomputable def cTop2 : LPoint := ⟨0.9, 1, none⟩

/-- The top-decile slice of `cDist2` at cutoff `0.9`. -/
noncomputable def cBins2 : List LPoint :=
  [⟨0.9, 1, none⟩, ⟨0.95, 1.2, none⟩, ⟨1, 1.6, none⟩]

theorem cDist2_findTop : findTop 0.9 cDist2 = some (cTop2, cBins2) := by
  norm_num [cDist2, cTop2, cBins2, findTop]

theorem cBins2_relIncomes : relIncomes cBins2 = [4, 8] := by
  norm_num [cBins2, relIncomes]

theorem cBins2_listMin : listMin (relIncomes cBins2) = 4 := by
  rw [cBins2_relIncomes]
  norm_num [listMin]

theorem cBins2_listMax : listMax (relIncomes cBins2) = 8 := by
  rw [cBins2_relIncomes]
  norm_num [listMax]

theorem cBins2_log_ne :
    Real.log (listMin (relIncomes cBins2) / listMax (relIncomes cBins2)) ≠ 0 := by
  rw [cBins2_listMin, cBins2_listMax, show (4:ℝ)/8 = 1/2 by norm_num]
  exact log_half_neg.ne

theorem cDist2_alphaVal : alphaVal 0.5 60 40 cTop2 cBins2 = 1 := by
  rw [alphaVal, cBins2_listMin, cBins2_listMax, alphaOf]
  have h1 : ratio2Of cTop2.l 0.5 ((60:ℝ)/40) = 0 := by
    rw [ratio2Of]
    norm_num [cTop2]
  rw [h1]
  norm_num [Real.log_one]

/-- Witness for C3: an accepted run has alpha `> 1` (here alpha `= 3`),
and a run reaching the alpha stage with computed alpha `= 1 ≤ 1` is
rejected with the `invalidAlpha` reason carrying that alpha and the
gap fields. -/
theorem alpha_admissibility_at_concrete :
    1 < (mkAccepted cDist 40 60 0.5 0.9 cTop cBins).alpha ∧
    calculateChandySeidel cDist2 (some 40) (some 60) 0.5 0.9 =
      .rejected ⟨.invalidAlpha (alphaVal 0.5 60 40 cTop2 cBins2), some 40, some 60,
        some (60 - 40), some ((60 - 40) / 40 * 100)⟩ := by
  constructor
  · exact alpha_admissibility.1 cDist (some 40) (some 60) 0.5 0.9
      (mkAccepted cDist 40 60 0.5 0.9 cTop cBins) cDist_accepts
  · exact alpha_admissibility.2 cDist2 40 60 0.5 0.9 cTop2 cBins2
      (by norm_num [cDist2]) (by norm_num) (by norm_num) (by norm_num)
      cDist2_findTop (by rw [cBins2_relIncomes]; norm_num)
      (by rw [cBins2_listMin]; norm_num) (by rw [cBins2_listMax]; norm_num)
      (by rw [cBins2_listMin, cBins2_listMax]; norm_num)
      cBins2_log_ne (by rw [cDist2_alphaVal])

/-! ## Forward-scan lemmas for the interpolation claims -/

/-- The forward scan interpolates linearly on the first bracketing
segment: with every point strictly before the window below the query
and `A.p < p ≤ B.p`, the scan stops at the window `(A, B)`. -/
theorem interpScan_bracket (pre : List LPoint) (A B : LPoint) (suf : List LPoint) (p : ℝ)
    (hpre : ∀ x ∈ pre, x.p < p) (hA : A.p < p) (hB : p ≤ B.p) :
    interpScan (pre ++ A :: B :: suf) p =
      some (A.l + (p - A.p) / (B.p - A.p) * (B.l - A.l)) := by
  induction pre with
  | nil =>
    rw [List.nil_append, interpScan, if_neg (not_lt.2 hB)]
  | cons x pre ih =>
    rw [List.cons_append]
    cases pre with
    | nil =>
      rw [List.nil_append] at ih ⊢
      rw [interpScan, if_pos hA]
      exact ih (by simp)
    | cons y pre' =>
      rw [List.cons_append, interpScan, if_pos (hpre y (by simp))]
      rw [List.cons_append] at ih
      exact ih fun z hz => hpre z (by simp at hz ⊢; tauto)

/-- The forward scan falls back to the last point's `l` when the query
exceeds every point of the curve. -/
theorem interpScan_past_end (curve : List LPoint) (p : ℝ) (z : LPoint)
    (hall : ∀ x ∈ curve, x.p < p) (hz : curve.getLast? = some z) :
    interpScan curve p = some z.l := by
  induction curve with
  | nil => simp at hz
  | cons a rest ih =>
    cases rest with
    | nil =>
      simp only [List.getLast?_singleton, Option.some.injEq] at hz
      subst hz
      rw [interpScan]
    | cons b rest' =>
      rw [interpScan, if_pos (hall b (by simp))]
      exact ih (fun x hx => hall x (by simp at hx ⊢; tauto)) (by rw [← hz, List.getLast?_cons_cons])

/-- The forward scan returns the stored `l` of any curve point whose `p`
it is queried at, when the curve is strictly increasing in `p`. -/
theorem interpScan_at_mem (curve : List LPoint) (pt : LPoint)
    (hs : List.Pairwise (fun a b : LPoint => a.p < b.p) curve) (hm : pt ∈ curve) :
    interpScan curve pt.p = some pt.l := by
  induction curve with
  | nil => cases hm
  | cons a rest ih =>
    rw [List.pairwise_cons] at hs
    obtain ⟨ha, hs'⟩ := hs
    cases rest with
    | nil =>
      rw [List.mem_singleton] at hm
      subst hm
      rw [interpScan]
    | cons b rest' =>
      have hab : a.p < b.p := ha b (by simp)
      rcases List.mem_cons.1 hm with hpa | hm'
      · subst hpa
        rw [interpScan, if_neg (not_lt.2 hab.le)]
        norm_num
      · rcases List.mem_cons.1 hm' with hpb | hm''
        · subst hpb
          rw [interpScan, if_neg (lt_irrefl pt.p)]
          rw [div_self (ne_of_gt (sub_pos.2 hab))]
          norm_num
        · have hbpt : b.p < pt.p := (List.pairwise_cons.1 hs').1 pt hm''
          rw [interpScan, if_pos hbpt]
          exact ih hs' hm'

/-! ## C7: interpolation round-trip (corrected) -/

/-- Claim C7 counterexample: the curve `[(0, 0.5), (1, 1)]` is sorted
strictly ascending in `p` with at least 2 points and contains the point
`(0, 0.5)`, yet interpolation at its `p = 0` returns `0`, not `0.5`:
the `p ≤ 0` boundary shortcut fires before the curve is consulted, so
the round-trip fails for curve points at or beyond the `p` boundaries. -/
theorem interp_roundtrip_fails_at_boundary :
    List.Pairwise (fun a b : LPoint => a.p < b.p) [⟨0, 1/2, none⟩, ⟨1, 1, none⟩] ∧
    (⟨0, 1/2, none⟩ : LPoint) ∈ [(⟨0, 1/2, none⟩ : LPoint), ⟨1, 1, none⟩] ∧
    interpolateLorenz [⟨0, 1/2, none⟩, ⟨1, 1, none⟩] 0 = some 0 ∧
    interpolateLorenz [⟨0, 1/2, none⟩, ⟨1, 1, none⟩] 0 ≠ some (1/2) := by
  refine ⟨by norm_num, by simp, ?_, ?_⟩
  · rw [interpolateLorenz, if_pos le_rfl]
  · rw [interpolateLorenz, if_pos le_rfl]
    norm_num

/-- Claim C7 (amended): for every curve sorted strictly ascending in `p`
(unique `p`s) with at least 2 points, and every point `(p, l)` of the
curve whose `p` lies strictly between the boundary shortcuts, i.e.
`0 < p < 1`, interpolation at `p` returns exactly that point's `l`. -/
theorem interp_roundtrip (curve : List LPoint) (pt : LPoint)
    (hs : List.Pairwise (fun a b : LPoint => a.p < b.p) curve)
    (_hlen : 2 ≤ curve.length) (hm : pt ∈ curve) (h0 : 0 < pt.p) (h1 : pt.p < 1) :
    interpolateLorenz curve pt.p = some pt.l := by
  rw [interpolateLorenz, if_neg (not_le.2 h0), if_neg (not_le.2 h1)]
  exact interpScan_at_mem curve pt hs hm

/-- Witness for C7 (amended) at a concrete curve and interior point. -/
theorem interp_roundtrip_at_concrete :
    interpolateLorenz [⟨1/4, 1/8, none⟩, ⟨1/2, 1/4, none⟩, ⟨1, 1, none⟩] (1/2) =
      some (1/4) :=
  interp_roundtrip _ ⟨1/2, 1/4, none⟩ (by norm_num) (by simp) (by simp) (by norm_num)
    (by norm_num)

/-! ## C8: interpolation boundary and scan behaviour (corrected) -/

/-- Claim C8 counterexample: the statistics module's `interpolateLorenz`
does not return `null` for curves with fewer than 2 points — on the
one-point curve `[(0.5, 0.5)]` at the in-range query `p = 0.25` the
scan immediately hits the `i >= length - 1` fallback and returns that
point's `l = 0.5`.  (The `null`-for-short-curves check belongs to
`LorenzChart.interpolate` in chart.js, which performs it before the
boundary shortcuts.) -/
theorem interp_short_curve_not_null :
    interpolateLorenz [⟨1/2, 1/2, none⟩] (1/4) = some (1/2) ∧
    interpolateLorenz [⟨1/2, 1/2, none⟩] (1/4) ≠ none := by
  constructor
  · rw [interpolateLorenz, if_neg (by norm_num), if_neg (by norm_num), interpScan]
  · rw [interpolateLorenz, if_neg (by norm_num), if_neg (by norm_num), interpScan]
    simp

/-- Claim C8 (amended): the module-level interpolation returns `0` for
every query `p ≤ 0` and `1` for every query `p ≥ 1` regardless of the
curve (even one with fewer than 2 points); the `null` result for curves
with fewer than 2 points is produced by `LorenzChart.interpolate`,
which checks the length before the boundary shortcuts; otherwise the
scan returns the last point's `l` when the query exceeds every point,
and linear interpolation on the first bracketing window found by
forward scan. -/
theorem interpolate_boundaries_and_scan :
    (∀ (curve : List LPoint) (p : ℝ), p ≤ 0 → interpolateLorenz curve p = some 0) ∧
    (∀ (curve : List LPoint) (p : ℝ), 1 ≤ p → interpolateLorenz curve p = some 1) ∧
    (∀ (curve : List LPoint) (p : ℝ), curve.length < 2 → chartInterpolate curve p = none) ∧
    (∀ (curve : List LPoint) (p : ℝ) (z : LPoint), 0 < p → p < 1 →
      (∀ x ∈ curve, x.p < p) → curve.getLast? = some z →
      interpolateLorenz curve p = some z.l) ∧
    (∀ (pre : List LPoint) (A B : LPoint) (suf : List LPoint) (p : ℝ), 0 < p → p < 1 →
      (∀ x ∈ pre, x.p < p) → A.p < p → p ≤ B.p →
      interpolateLorenz (pre ++ A :: B :: suf) p =
        some (A.l + (p - A.p) / (B.p - A.p) * (B.l - A.l))) := by
  refine ⟨?_, ?_, ?_, ?_, ?_⟩
  · intro curve p hp
    rw [interpolateLorenz, if_pos hp]
  · intro curve p hp
    rw [interpolateLorenz, if_neg (by linarith), if_pos hp]
  · intro curve p hlen
    rw [chartInterpolate, if_pos hlen]
  · intro curve p z h0 h1 hall hz
    rw [interpolateLorenz, if_neg (not_le.2 h0), if_neg (not_le.2 h1)]
    exact interpScan_past_end curve p z hall hz
  · intro pre A B suf p h0 h1 hpre hA hB
    rw [interpolateLorenz, if_neg (not_le.2 h0), if_neg (not_le.2 h1)]
    exact interpScan_bracket pre A B suf p hpre hA hB

/-- Witness for C8 (amended) at concrete inputs: both boundary
shortcuts, the chart-level `null` on a short curve, the past-the-end
fallback and a bracketed interpolation. -/
theorem interpolate_boundaries_and_scan_at_concrete :
    interpolateLorenz [] (-1) = some 0 ∧
    interpolateLorenz [] 2 = some 1 ∧
    chartInterpolate [⟨1/2, 1/2, none⟩] (1/2) = none ∧
    interpolateLorenz [⟨1/4, 1/8, none⟩, ⟨1/2, 1/4, none⟩] (3/4) = some (1/4) ∧
    interpolateLorenz [⟨1/4, 1/8, none⟩, ⟨1/2, 1/4, none⟩] (3/8) =
      some ((1/8 : ℝ) + (3/8 - 1/4) / (1/2 - 1/4) * (1/4 - 1/8)) :=
  ⟨interpolate_boundaries_and_scan.1 [] (-1) (by norm_num),
   interpolate_boundaries_and_scan.2.1 [] 2 (by norm_num),
   interpolate_boundaries_and_scan.2.2.1 [⟨1/2, 1/2, none⟩] (1/2) (by simp),
   interpolate_boundaries_and_scan.2.2.2.1 [⟨1/4, 1/8, none⟩, ⟨1/2, 1/4, none⟩] (3/4)
     ⟨1/2, 1/4, none⟩ (by norm_num) (by norm_num)
     (by intro x hx; rcases List.mem_cons.1 hx with h | h
         · subst h; norm_num
         · simp only [List.mem_singleton] at h; subst h; norm_num)
     (by simp),
   interpolate_boundaries_and_scan.2.2.2.2 [] ⟨1/4, 1/8, none⟩ ⟨1/2, 1/4, none⟩ [] (3/8)
     (by norm_num) (by norm_num) (by simp) (by norm_num) (by norm_num)⟩

end ChandySeidel
